import Mathlib

/-!
Shallow embedding of the hnsw-iris repository (src/iris.rs and src/main.rs).

An `IrisCodeArray` is a `[u64; 2]` array (128 bits in 2 words of 64 bits).
We model each `u64` word as a `Nat` together with the well-formedness bound
`< 2 ^ 64` where it matters; all bitwise operations mirror the Rust code
word for word.  The `f64` masked-Hamming distance is modelled over `ℚ`
(the division `popcount / popcount` of two machine naturals).
-/

/-- `u64` modulus: one more than `u64::MAX`. -/
def U64_MOD : Nat := 2 ^ 64

/-- `pub const MATCH_THRESHOLD_RATIO: f64 = 0.375;` (iris.rs line 6).
0.375 = 3/8 is exactly representable in `f64`; we model it in `ℚ`. -/
def MATCH_THRESHOLD_RATIO : ℚ := 0.375

/-- `pub struct IrisCodeArray(pub [u64; Self::IRIS_CODE_SIZE_U64]);`
with `IRIS_CODE_SIZE_U64 = (128 + 63) / 64 = 2`: a two-word array,
each word modelling a `u64`. -/
structure IrisCodeArray where
  w0 : Nat
  w1 : Nat
deriving DecidableEq

/-- `IRIS_CODE_SIZE: usize = 128` -/
def IrisCodeArray.IRIS_CODE_SIZE : Nat := 128

/-- `IRIS_CODE_SIZE_U64: usize = (Self::IRIS_CODE_SIZE + 63) / 64` -/
def IrisCodeArray.IRIS_CODE_SIZE_U64 : Nat := (IrisCodeArray.IRIS_CODE_SIZE + 63) / 64

/-- `ZERO`: the all-zero array. -/
def IrisCodeArray.ZERO : IrisCodeArray := ⟨0, 0⟩

/-- `ONES`: every word is `u64::MAX = 2^64 - 1`. -/
def IrisCodeArray.ONES : IrisCodeArray := ⟨U64_MOD - 1, U64_MOD - 1⟩

/-- Read word `self.0[word]` of the two-word array. -/
def IrisCodeArray.get_word (a : IrisCodeArray) (word : Nat) : Nat :=
  if word = 0 then a.w0 else a.w1

/-- Write word `self.0[word]` of the two-word array. -/
def IrisCodeArray.set_word (a : IrisCodeArray) (word : Nat) (w : Nat) : IrisCodeArray :=
  if word = 0 then { a with w0 := w } else { a with w1 := w }

/-- `set_bit(i, val)`: `let word = i / 64; let bit = i % 64;`
`if val { self.0[word] |= 1u64 << bit } else { self.0[word] &= !(1u64 << bit) }`.
The 64-bit complement `!(1u64 << bit)` is `(2^64 - 1) ^^^ (1 <<< bit)`. -/
def IrisCodeArray.set_bit (a : IrisCodeArray) (i : Nat) (val : Bool) : IrisCodeArray :=
  let word := i / 64
  let bit := i % 64
  if val then
    a.set_word word (a.get_word word ||| (1 <<< bit))
  else
    a.set_word word (a.get_word word &&& ((U64_MOD - 1) ^^^ (1 <<< bit)))

/-- `get_bit(i)`: `(self.0[i / 64] >> (i % 64)) & 1 == 1`. -/
def IrisCodeArray.get_bit (a : IrisCodeArray) (i : Nat) : Bool :=
  (a.get_word (i / 64) >>> (i % 64)) &&& 1 == 1

/-- `flip_bit(i)`: `self.0[i / 64] ^= 1u64 << (i % 64)`. -/
def IrisCodeArray.flip_bit (a : IrisCodeArray) (i : Nat) : IrisCodeArray :=
  let word := i / 64
  let bit := i % 64
  a.set_word word (a.get_word word ^^^ (1 <<< bit))

/-- Population count of one `u64` word (`u64::count_ones`): the number of set
bits among positions `0 .. 64`. -/
def wordCountOnes (w : Nat) : Nat :=
  (List.range 64).countP (fun b => w.testBit b)

/-- The word array as a list, in index order (`self.0` as a slice). -/
def IrisCodeArray.toWords (a : IrisCodeArray) : List Nat := [a.w0, a.w1]

/-- `count_ones()`: `self.0.iter().map(|c| c.count_ones() as usize).sum()`. -/
def IrisCodeArray.count_ones (a : IrisCodeArray) : Nat :=
  (a.toWords.map wordCountOnes).sum

/-- `impl BitAnd`: word-wise `&` over the two words (the `for i in 0..2` loop
unrolled). -/
def IrisCodeArray.bitand (a b : IrisCodeArray) : IrisCodeArray :=
  ⟨a.w0 &&& b.w0, a.w1 &&& b.w1⟩

/-- `impl BitXor`: word-wise `^` over the two words (the `for i in 0..2` loop
unrolled). -/
def IrisCodeArray.bitxor (a b : IrisCodeArray) : IrisCodeArray :=
  ⟨a.w0 ^^^ b.w0, a.w1 ^^^ b.w1⟩

/-- Well-formedness: each word fits in a `u64`. -/
def IrisCodeArray.wf (a : IrisCodeArray) : Prop :=
  a.w0 < U64_MOD ∧ a.w1 < U64_MOD

instance (a : IrisCodeArray) : Decidable a.wf := by
  unfold IrisCodeArray.wf; infer_instance

/-- `pub struct IrisCode { pub code: IrisCodeArray, pub mask: IrisCodeArray }` -/
structure IrisCode where
  code : IrisCodeArray
  mask : IrisCodeArray
deriving DecidableEq

/-- `get_distance(&self, other) -> f64` (iris.rs lines 155-162), modelled in `ℚ`:
`let combined_mask = self.mask & other.mask;`
`let combined_mask_len = combined_mask.count_ones();`
`let combined_code = (self.code ^ other.code) & combined_mask;`
`let code_distance = combined_code.count_ones();`
`code_distance as f64 / combined_mask_len as f64`. -/
def IrisCode.get_distance (a b : IrisCode) : ℚ :=
  let combined_mask := a.mask.bitand b.mask
  let combined_mask_len := combined_mask.count_ones
  let combined_code := (a.code.bitxor b.code).bitand combined_mask
  let code_distance := combined_code.count_ones
  (code_distance : ℚ) / (combined_mask_len : ℚ)

/-- `is_close(&self, other) -> bool`: `self.get_distance(other) < MATCH_THRESHOLD_RATIO`. -/
def IrisCode.is_close (a b : IrisCode) : Bool :=
  decide (a.get_distance b < MATCH_THRESHOLD_RATIO)

/-- `as_merged_array()` (iris.rs lines 128-135): the code words followed by the
mask words, `2 + 2` words. -/
def IrisCode.as_merged_array (a : IrisCode) : List Nat :=
  a.code.toWords ++ a.mask.toWords

/-- `to_array` (main.rs lines 29-31) applied to a two-word slice: rebuild an
`IrisCodeArray` from the first two words. -/
def to_array (code : List Nat) : IrisCodeArray :=
  ⟨code.getD 0 0, code.getD 1 0⟩

/-- `HD::eval` (main.rs lines 33-52), distance part (the diagnostic counter
increment is modelled separately in the benchmark state):
split each flat vector at `IRIS_CODE_SIZE_U64` into code and mask halves,
rebuild two `IrisCode`s and return their distance (the `as f32` cast is
modelled as the identity on `ℚ`). -/
def HD_eval (va vb : List Nat) : ℚ :=
  let iris_code1 := to_array (va.take IrisCodeArray.IRIS_CODE_SIZE_U64)
  let mask_code1 := to_array (va.drop IrisCodeArray.IRIS_CODE_SIZE_U64)
  let iris_code2 := to_array (vb.take IrisCodeArray.IRIS_CODE_SIZE_U64)
  let mask_code2 := to_array (vb.drop IrisCodeArray.IRIS_CODE_SIZE_U64)
  let code1 : IrisCode := ⟨iris_code1, mask_code1⟩
  let code2 : IrisCode := ⟨iris_code2, mask_code2⟩
  code1.get_distance code2

/-- The loop body of `IrisCode::random_rng` applied over the list of
`rng.gen_range(0..IRIS_CODE_SIZE / 2)` draws, one per iteration:
`code.mask.set_bit(2 * i, false); code.mask.set_bit(2 * i + 1, false);`. -/
def clearPairs (mask : IrisCodeArray) (draws : List Nat) : IrisCodeArray :=
  draws.foldl (fun m i => (m.set_bit (2 * i) false).set_bit (2 * i + 1) false) mask

/-- `IrisCode::random_rng` (iris.rs lines 137-153).  The RNG is modelled by its
outputs: `codeArr` is the uniformly random array produced by
`IrisCodeArray::random_rng` for the code, and `draws` is the list of
`gen_range(0..IRIS_CODE_SIZE / 2)` results consumed by the
`for _ in 0..Self::IRIS_CODE_SIZE / 10 / 2` loop (so a faithful run has
`draws.length = IRIS_CODE_SIZE / 10 / 2` and every draw `< IRIS_CODE_SIZE / 2`).
The mask starts as `ONES` and each draw clears the bit pair `2i, 2i+1`. -/
def IrisCode.random_rng (codeArr : IrisCodeArray) (draws : List Nat) : IrisCode :=
  { code := codeArr, mask := clearPairs IrisCodeArray.ONES draws }

/-- The set of clear (zero) mask bits among the 128 bit positions. -/
def clearSet (m : IrisCodeArray) : Finset ℕ :=
  (Finset.range IrisCodeArray.IRIS_CODE_SIZE).filter (fun i => m.get_bit i = false)

/-- `struct Bits` (iris.rs lines 185-189): iterator state over an
`IrisCodeArray` (the borrowed array, the current shift register, the index). -/
structure Bits where
  code : IrisCodeArray
  current : Nat
  index : Nat

/-- `Iterator::next for Bits` (iris.rs lines 194-206):
return `None` once `index >= IRIS_CODE_SIZE`; otherwise reload `current`
from word `index / 64` at each word boundary, emit `current & 1 == 1`,
shift `current` right by one and advance `index`. -/
def Bits.step (b : Bits) : Option (Bool × Bits) :=
  if IrisCodeArray.IRIS_CODE_SIZE ≤ b.index then
    none
  else
    let current := if b.index % 64 = 0 then b.code.get_word (b.index / 64) else b.current
    some (current &&& 1 == 1, { b with current := current >>> 1, index := b.index + 1 })

/-- `bits()` (iris.rs lines 33-39): the initial iterator state. -/
def IrisCodeArray.bits (a : IrisCodeArray) : Bits :=
  { code := a, current := 0, index := 0 }

/-- Drive the `Bits` iterator: collect the emitted booleans until it returns
`None`, with explicit fuel (any fuel `≥ IRIS_CODE_SIZE` reaches the `None`). -/
def runBits : Nat → Bits → List Bool
  | 0, _ => []
  | fuel + 1, b =>
    match b.step with
    | none => []
    | some (r, b2) => r :: runBits fuel b2

/-- The query phase and report of `main` (main.rs lines 83-116), modelled on the
two shared counters.  `insertEvals` is the value accumulated in `EVAL_COUNTER`
by the insertion phase; at the switch to searching mode the counter is reset
(`EVAL_COUNTER.store(0)`).  Each retained query contributes the number of
`HD::eval` calls its search performs and whether the top-1 id matched
(`correct.fetch_add(1)` on a hit).  The report is
`ØEvals = EVAL_COUNTER / random_queries_vec.len()` (integer division, as in the
Rust `usize` division) and
`Recall = correct as f32 / random_queries_vec.len() as f32 * 100.0`
(modelled in `ℚ`). -/
def tallyQueries (st : Nat × Nat) (queries : List (Nat × Bool)) : Nat × Nat :=
  queries.foldl (fun st q => (st.1 + q.1, st.2 + if q.2 then 1 else 0)) st

/-- The full report of `main`: run the query phase on the counter state left by
the reset at the searching-mode switch, then form the two printed values. -/
def benchReport (insertEvals : Nat) (queries : List (Nat × Bool)) : Nat × ℚ :=
  let evalCounterAfterInsert := insertEvals
  let evalCounterAtSwitch := 0
  let final := tallyQueries (evalCounterAtSwitch, 0) queries
  (final.1 / queries.length, (final.2 : ℚ) / (queries.length : ℚ) * 100)

/-! ## Word-level helper lemmas -/

theorem get_word_set_word_self (a : IrisCodeArray) (k w : Nat) :
    (a.set_word k w).get_word k = w := by
  unfold IrisCodeArray.set_word IrisCodeArray.get_word
  by_cases hk : k = 0 <;> simp [hk]

theorem get_word_set_word_ne (a : IrisCodeArray) (k l w : Nat)
    (hk : k < 2) (hl : l < 2) (hne : l ≠ k) :
    (a.set_word k w).get_word l = a.get_word l := by
  unfold IrisCodeArray.set_word IrisCodeArray.get_word
  interval_cases k <;> interval_cases l <;> simp_all

theorem set_word_set_word (a : IrisCodeArray) (k x y : Nat) :
    (a.set_word k x).set_word k y = a.set_word k y := by
  unfold IrisCodeArray.set_word
  by_cases hk : k = 0 <;> simp [hk]

theorem set_word_get_word (a : IrisCodeArray) (k : Nat) :
    a.set_word k (a.get_word k) = a := by
  unfold IrisCodeArray.set_word IrisCodeArray.get_word
  by_cases hk : k = 0 <;> simp [hk]

theorem get_bit_eq_testBit (a : IrisCodeArray) (i : Nat) :
    a.get_bit i = (a.get_word (i / 64)).testBit (i % 64) := by
  unfold IrisCodeArray.get_bit Nat.testBit
  rcases Nat.mod_two_eq_zero_or_one (a.get_word (i / 64) >>> (i % 64)) with h | h <;>
    simp [Nat.and_one_is_mod, Nat.and_comm, h]

/-! ## Single-bit frame lemmas for `set_bit` and `flip_bit` -/

theorem get_bit_set_bit_self (a : IrisCodeArray) (i : Nat) (v : Bool) :
    (a.set_bit i v).get_bit i = v := by
  rw [get_bit_eq_testBit]
  unfold IrisCodeArray.set_bit
  have hb : i % 64 < 64 := Nat.mod_lt _ (by norm_num)
  have h1 : Nat.testBit (U64_MOD - 1) (i % 64) = true := by
    show Nat.testBit (2 ^ 64 - 1) (i % 64) = true
    rw [Nat.testBit_two_pow_sub_one]
    simpa using hb
  cases v <;>
    simp [get_word_set_word_self, Nat.one_shiftLeft, h1,
      Nat.testBit_two_pow_self, hb]

theorem get_bit_set_bit_ne (a : IrisCodeArray) (i j : Nat) (v : Bool)
    (hi : i < IrisCodeArray.IRIS_CODE_SIZE) (hj : j < IrisCodeArray.IRIS_CODE_SIZE)
    (hne : j ≠ i) :
    (a.set_bit i v).get_bit j = a.get_bit j := by
  have hsize : IrisCodeArray.IRIS_CODE_SIZE = 128 := rfl
  rw [hsize] at hi hj
  rw [get_bit_eq_testBit, get_bit_eq_testBit]
  unfold IrisCodeArray.set_bit
  by_cases hw : j / 64 = i / 64
  · have hbne : j % 64 ≠ i % 64 := by omega
    have hb : j % 64 < 64 := Nat.mod_lt _ (by norm_num)
    have h1 : Nat.testBit (U64_MOD - 1) (j % 64) = true := by
      show Nat.testBit (2 ^ 64 - 1) (j % 64) = true
      rw [Nat.testBit_two_pow_sub_one]
      simpa using hb
    cases v <;>
      simp [hw, get_word_set_word_self, Nat.one_shiftLeft, h1,
        Nat.testBit_two_pow_of_ne (fun h => hbne h.symm), hb]
  · have hwi : i / 64 < 2 := by omega
    have hwj : j / 64 < 2 := by omega
    cases v <;> simp [get_word_set_word_ne a (i / 64) (j / 64) _ hwi hwj hw]

theorem get_bit_flip_bit_self (a : IrisCodeArray) (i : Nat) :
    (a.flip_bit i).get_bit i = !a.get_bit i := by
  rw [get_bit_eq_testBit, get_bit_eq_testBit]
  unfold IrisCodeArray.flip_bit
  simp [get_word_set_word_self, Nat.one_shiftLeft, Nat.testBit_two_pow_self]

theorem get_bit_flip_bit_ne (a : IrisCodeArray) (i j : Nat)
    (hi : i < IrisCodeArray.IRIS_CODE_SIZE) (hj : j < IrisCodeArray.IRIS_CODE_SIZE)
    (hne : j ≠ i) :
    (a.flip_bit i).get_bit j = a.get_bit j := by
  have hsize : IrisCodeArray.IRIS_CODE_SIZE = 128 := rfl
  rw [hsize] at hi hj
  rw [get_bit_eq_testBit, get_bit_eq_testBit]
  unfold IrisCodeArray.flip_bit
  by_cases hw : j / 64 = i / 64
  · have hbne : j % 64 ≠ i % 64 := by omega
    simp [hw, get_word_set_word_self, Nat.one_shiftLeft,
      Nat.testBit_two_pow_of_ne (fun h => hbne h.symm)]
  · have hwi : i / 64 < 2 := by omega
    have hwj : j / 64 < 2 := by omega
    simp [get_word_set_word_ne a (i / 64) (j / 64) _ hwi hwj hw]

theorem flip_bit_flip_bit (a : IrisCodeArray) (i : Nat) :
    (a.flip_bit i).flip_bit i = a := by
  simp only [IrisCodeArray.flip_bit]
  rw [get_word_set_word_self, set_word_set_word, Nat.xor_assoc, Nat.xor_self,
    Nat.xor_zero, set_word_get_word]

/-- `IRIS_CODE_SIZE` evaluates to `128` (definitional). -/
theorem lt_size {n : Nat} (h : n < 128) : n < IrisCodeArray.IRIS_CODE_SIZE := h

theorem get_bit_ONES (j : Nat) : IrisCodeArray.ONES.get_bit j = true := by
  rw [get_bit_eq_testBit]
  have hb : j % 64 < 64 := Nat.mod_lt _ (by norm_num)
  have h1 : Nat.testBit (U64_MOD - 1) (j % 64) = true := by
    show Nat.testBit (2 ^ 64 - 1) (j % 64) = true
    rw [Nat.testBit_two_pow_sub_one]
    simpa using hb
  unfold IrisCodeArray.ONES IrisCodeArray.get_word
  by_cases h : j / 64 = 0 <;> simp [h, h1]

/-! ## Lemmas about the mask-clearing loop of `random_rng` -/

theorem clearPairs_nil (m : IrisCodeArray) : clearPairs m [] = m := rfl

theorem clearPairs_cons (m : IrisCodeArray) (d : Nat) (rest : List Nat) :
    clearPairs m (d :: rest) =
      clearPairs ((m.set_bit (2 * d) false).set_bit (2 * d + 1) false) rest := rfl

theorem clearPairs_pair_eq (draws : List Nat) :
    ∀ m : IrisCodeArray, (∀ i ∈ draws, i < 64) →
    (∀ k, k < 64 → m.get_bit (2 * k) = m.get_bit (2 * k + 1)) →
    ∀ k, k < 64 →
      (clearPairs m draws).get_bit (2 * k) = (clearPairs m draws).get_bit (2 * k + 1) := by
  induction draws with
  | nil => intro m _ hm k hk; exact hm k hk
  | cons d rest ih =>
    intro m hdr hm k hk
    rw [clearPairs_cons]
    have hd : d < 64 := hdr d (by simp)
    refine ih _ (fun i hi => hdr i (by simp [hi])) ?_ k hk
    intro k' hk'
    by_cases hkd : k' = d
    · subst hkd
      rw [get_bit_set_bit_ne _ _ _ _ (lt_size (by omega)) (lt_size (by omega)) (by omega),
        get_bit_set_bit_self, get_bit_set_bit_self]
    · rw [get_bit_set_bit_ne _ _ _ _ (lt_size (by omega)) (lt_size (by omega)) (by omega),
        get_bit_set_bit_ne _ _ _ _ (lt_size (by omega)) (lt_size (by omega)) (by omega),
        get_bit_set_bit_ne _ _ _ _ (lt_size (by omega)) (lt_size (by omega)) (by omega),
        get_bit_set_bit_ne _ _ _ _ (lt_size (by omega)) (lt_size (by omega)) (by omega)]
      exact hm k' hk'

theorem clearSet_step_subset (m : IrisCodeArray) (d : Nat) (hd : d < 64) :
    clearSet ((m.set_bit (2 * d) false).set_bit (2 * d + 1) false) ⊆
      insert (2 * d) (insert (2 * d + 1) (clearSet m)) := by
  intro j hj
  unfold clearSet at hj
  rw [Finset.mem_filter, Finset.mem_range] at hj
  obtain ⟨hj128, hbit⟩ := hj
  have hj' : j < 128 := hj128
  by_cases h1 : j = 2 * d
  · simp [h1]
  · by_cases h2 : j = 2 * d + 1
    · simp [h2]
    · rw [get_bit_set_bit_ne _ _ _ _ (lt_size (by omega)) (lt_size hj') h2,
        get_bit_set_bit_ne _ _ _ _ (lt_size (by omega)) (lt_size hj') h1] at hbit
      rw [Finset.mem_insert, Finset.mem_insert]
      refine Or.inr (Or.inr ?_)
      unfold clearSet
      rw [Finset.mem_filter, Finset.mem_range]
      exact ⟨hj128, hbit⟩

theorem clearPairs_card_le (draws : List Nat) :
    ∀ m : IrisCodeArray, (∀ i ∈ draws, i < 64) →
    (clearSet (clearPairs m draws)).card ≤ (clearSet m).card + 2 * draws.length := by
  induction draws with
  | nil => intro m _; simp [clearPairs_nil]
  | cons d rest ih =>
    intro m hdr
    have hd : d < 64 := hdr d (by simp)
    have hins : (insert (2 * d) (insert (2 * d + 1) (clearSet m))).card ≤
        (clearSet m).card + 2 := by
      calc (insert (2 * d) (insert (2 * d + 1) (clearSet m))).card
          ≤ (insert (2 * d + 1) (clearSet m)).card + 1 := Finset.card_insert_le _ _
        _ ≤ (clearSet m).card + 1 + 1 :=
            Nat.add_le_add_right (Finset.card_insert_le _ _) 1
        _ = (clearSet m).card + 2 := by omega
    calc (clearSet (clearPairs m (d :: rest))).card
        ≤ (clearSet ((m.set_bit (2 * d) false).set_bit (2 * d + 1) false)).card
            + 2 * rest.length := by
          rw [clearPairs_cons]
          exact ih _ (fun i hi => hdr i (by simp [hi]))
      _ ≤ (insert (2 * d) (insert (2 * d + 1) (clearSet m))).card + 2 * rest.length :=
          Nat.add_le_add_right
            (Finset.card_le_card (clearSet_step_subset m d hd)) _
      _ ≤ (clearSet m).card + 2 + 2 * rest.length := Nat.add_le_add_right hins _
      _ = (clearSet m).card + 2 * (d :: rest).length := by simp; omega

theorem clearSet_ONES : clearSet IrisCodeArray.ONES = ∅ := by
  ext j
  simp [clearSet, get_bit_ONES]

/-! ## Popcount monotonicity -/

theorem wordCountOnes_and_le (x m : Nat) : wordCountOnes (x &&& m) ≤ wordCountOnes m := by
  unfold wordCountOnes
  apply List.countP_mono_left
  intro b _ hb
  rw [Nat.testBit_and] at hb
  exact (Bool.and_eq_true _ _).mp hb |>.2

theorem count_ones_bitand_le (x m : IrisCodeArray) :
    (x.bitand m).count_ones ≤ m.count_ones := by
  unfold IrisCodeArray.count_ones IrisCodeArray.bitand IrisCodeArray.toWords
  simp only [List.map_cons, List.map_nil, List.sum_cons, List.sum_nil, Nat.add_zero]
  exact Nat.add_le_add (wordCountOnes_and_le _ _) (wordCountOnes_and_le _ _)

/-! ## The `Bits` iterator emits the bits in index order -/

theorem step_eq (a : IrisCodeArray) (cur i : Nat) :
    Bits.step ⟨a, cur, i⟩ =
      if IrisCodeArray.IRIS_CODE_SIZE ≤ i then none
      else
        some ((if i % 64 = 0 then a.get_word (i / 64) else cur) &&& 1 == 1,
          ⟨a, (if i % 64 = 0 then a.get_word (i / 64) else cur) >>> 1, i + 1⟩) := rfl

theorem runBits_eq (fuel : Nat) :
    ∀ (i cur : Nat) (a : IrisCodeArray),
    IrisCodeArray.IRIS_CODE_SIZE - i ≤ fuel →
    (i % 64 ≠ 0 → cur = a.get_word (i / 64) >>> (i % 64)) →
    runBits fuel ⟨a, cur, i⟩ =
      (List.range (IrisCodeArray.IRIS_CODE_SIZE - i)).map (fun k => a.get_bit (i + k)) := by
  induction fuel with
  | zero =>
    intro i cur a hfuel hinv
    have h0 : IrisCodeArray.IRIS_CODE_SIZE - i = 0 := Nat.le_zero.mp hfuel
    rw [h0]
    rfl
  | succ fuel ih =>
    intro i cur a hfuel hinv
    have hsize : IrisCodeArray.IRIS_CODE_SIZE = 128 := rfl
    rw [hsize] at hfuel ⊢
    by_cases hi : 128 ≤ i
    · have h0 : 128 - i = 0 := by omega
      rw [h0]
      have hstep : Bits.step ⟨a, cur, i⟩ = none := by
        rw [step_eq, if_pos (show IrisCodeArray.IRIS_CODE_SIZE ≤ i from hi)]
      simp [runBits, hstep]
    · push_neg at hi
      have hcur : (if i % 64 = 0 then a.get_word (i / 64) else cur)
          = a.get_word (i / 64) >>> (i % 64) := by
        by_cases h64 : i % 64 = 0
        · simp [h64]
        · simp [h64, hinv h64]
      have hstep : Bits.step ⟨a, cur, i⟩ =
          some (a.get_bit i, ⟨a, (a.get_word (i / 64) >>> (i % 64)) >>> 1, i + 1⟩) := by
        rw [step_eq, if_neg (show ¬IrisCodeArray.IRIS_CODE_SIZE ≤ i from Nat.not_le.mpr hi),
          hcur]
        rfl
      have hrec : runBits fuel ⟨a, (a.get_word (i / 64) >>> (i % 64)) >>> 1, i + 1⟩ =
          (List.range (IrisCodeArray.IRIS_CODE_SIZE - (i + 1))).map
            (fun k => a.get_bit (i + 1 + k)) := by
        refine ih (i + 1) _ a (by rw [hsize]; omega) ?_
        intro h64
        have h1 : (i + 1) / 64 = i / 64 := by omega
        have h2 : (i + 1) % 64 = i % 64 + 1 := by omega
        rw [h1, h2, Nat.shiftRight_add]
      have hrange : 128 - i = (128 - (i + 1)) + 1 := by omega
      rw [hrange, List.range_succ_eq_map, List.map_cons]
      simp only [runBits, hstep]
      rw [hrec, hsize]
      congr 1
      rw [List.map_map]
      refine List.map_congr_left ?_
      intro k hk
      simp only [Function.comp_apply, Nat.succ_eq_add_one]
      congr 1
      omega

/-! ## Commutativity of the word-wise operations -/

theorem bitand_comm (a b : IrisCodeArray) : a.bitand b = b.bitand a := by
  unfold IrisCodeArray.bitand
  rw [Nat.and_comm a.w0 b.w0, Nat.and_comm a.w1 b.w1]

theorem bitxor_comm (a b : IrisCodeArray) : a.bitxor b = b.bitxor a := by
  unfold IrisCodeArray.bitxor
  rw [Nat.xor_comm a.w0 b.w0, Nat.xor_comm a.w1 b.w1]

/-! ## The benchmark counter fold -/

theorem queryFold_eq (queries : List (Nat × Bool)) :
    ∀ e c : Nat,
    tallyQueries (e, c) queries =
      (e + (queries.map Prod.fst).sum, c + queries.countP Prod.snd) := by
  induction queries with
  | nil => intro e c; simp [tallyQueries]
  | cons q rest ih =>
    intro e c
    unfold tallyQueries at ih ⊢
    rw [List.foldl_cons, ih]
    rcases q with ⟨qe, qh⟩
    simp only [List.map_cons, List.sum_cons, List.countP_cons]
    cases qh <;> simp <;> omega

/-! ## Claims -/

/-- C1: for every pair of templates `a` and `b`, `get_distance(a, b)` equals
`popcount((a.code XOR b.code) AND (a.mask AND b.mask))` divided by
`popcount(a.mask AND b.mask)`, where AND and XOR are the word-wise bitwise
operations on the two 64-bit-word arrays and popcount is `count_ones` summed
across the words. -/
theorem claim_C1_get_distance_formula (a b : IrisCode) :
    a.get_distance b =
      (((a.code.bitxor b.code).bitand (a.mask.bitand b.mask)).count_ones : ℚ) /
        ((a.mask.bitand b.mask).count_ones : ℚ) ∧
    ((a.code.bitxor b.code).bitand (a.mask.bitand b.mask)).count_ones =
      wordCountOnes ((a.code.w0 ^^^ b.code.w0) &&& (a.mask.w0 &&& b.mask.w0)) +
        wordCountOnes ((a.code.w1 ^^^ b.code.w1) &&& (a.mask.w1 &&& b.mask.w1)) ∧
    (a.mask.bitand b.mask).count_ones =
      wordCountOnes (a.mask.w0 &&& b.mask.w0) + wordCountOnes (a.mask.w1 &&& b.mask.w1) := by
  refine ⟨rfl, ?_, ?_⟩ <;>
    simp [IrisCodeArray.count_ones, IrisCodeArray.bitand, IrisCodeArray.bitxor,
      IrisCodeArray.toWords]

/-- C2: splitting the merged flat vector (`as_merged_array`, code words then mask
words) back at the midpoint, as `HD::eval` does, reproduces the original code
and mask bit for bit, and `HD::eval` on two merged templates returns their
`get_distance`. -/
theorem claim_C2_merged_roundtrip (t a b : IrisCode) :
    to_array (t.as_merged_array.take IrisCodeArray.IRIS_CODE_SIZE_U64) = t.code ∧
    to_array (t.as_merged_array.drop IrisCodeArray.IRIS_CODE_SIZE_U64) = t.mask ∧
    HD_eval a.as_merged_array b.as_merged_array = a.get_distance b :=
  ⟨rfl, rfl, rfl⟩

/-- C4: when the two masks have empty intersection, the division in
`get_distance` is unguarded: the divisor is zero and the quotient is still
formed (no error branch or sentinel exists in the code). -/
theorem claim_C4_zero_mask_division (a b : IrisCode)
    (h : (a.mask.bitand b.mask).count_ones = 0) :
    a.get_distance b =
      (((a.code.bitxor b.code).bitand (a.mask.bitand b.mask)).count_ones : ℚ) / 0 := by
  simp only [IrisCode.get_distance, h, Nat.cast_zero]

/-- C5: whenever the combined mask has at least one set bit, `get_distance` lies
in `[0, 1]`; in particular the popcount of the masked code difference never
exceeds the popcount of the combined mask. -/
theorem claim_C5_distance_in_unit_interval (a b : IrisCode)
    (h : (a.mask.bitand b.mask).count_ones ≠ 0) :
    0 ≤ a.get_distance b ∧ a.get_distance b ≤ 1 ∧
    ((a.code.bitxor b.code).bitand (a.mask.bitand b.mask)).count_ones ≤
      (a.mask.bitand b.mask).count_ones := by
  have hle := count_ones_bitand_le (a.code.bitxor b.code) (a.mask.bitand b.mask)
  have hpos : (0 : ℚ) < ((a.mask.bitand b.mask).count_ones : ℚ) := by
    exact_mod_cast Nat.pos_of_ne_zero h
  refine ⟨?_, ?_, hle⟩
  · simp only [IrisCode.get_distance]
    positivity
  · simp only [IrisCode.get_distance]
    rw [div_le_one hpos]
    exact_mod_cast hle

/-- C6: `get_distance` is symmetric. -/
theorem claim_C6_distance_symm (a b : IrisCode) :
    a.get_distance b = b.get_distance a := by
  simp only [IrisCode.get_distance]
  rw [bitand_comm a.mask b.mask, bitxor_comm a.code b.code]

/-- C7: `is_close(a, b)` returns true if and only if `get_distance(a, b)` is
strictly below the fixed threshold constant 0.375 (`MATCH_THRESHOLD_RATIO`). -/
theorem claim_C7_is_close_iff (a b : IrisCode) :
    (a.is_close b = true ↔ a.get_distance b < MATCH_THRESHOLD_RATIO) ∧
    MATCH_THRESHOLD_RATIO = (0.375 : ℚ) := by
  refine ⟨?_, rfl⟩
  simp [IrisCode.is_close]

/-- C3: a template produced by `random_rng` has a mask obtained from all-ones
by exactly `IRIS_CODE_SIZE / 10 / 2 = 6` clearing draws, each clearing the
adjacent pair `2k, 2k+1` for a drawn `k < IRIS_CODE_SIZE / 2`; hence in the
resulting mask, for every pair index `k`, bits `2k` and `2k+1` are equal, and
at most 12 mask bits are clear in total (duplicate draws are kept, not
deduplicated, so fewer distinct pairs may be cleared). -/
theorem claim_C3_random_mask_invariants (codeArr : IrisCodeArray) (draws : List Nat)
    (hlen : draws.length = IrisCodeArray.IRIS_CODE_SIZE / 10 / 2)
    (hdr : ∀ d ∈ draws, d < IrisCodeArray.IRIS_CODE_SIZE / 2) :
    IrisCodeArray.IRIS_CODE_SIZE / 10 / 2 = 6 ∧
    (IrisCode.random_rng codeArr draws).mask = clearPairs IrisCodeArray.ONES draws ∧
    (∀ k, k < IrisCodeArray.IRIS_CODE_SIZE / 2 →
      (IrisCode.random_rng codeArr draws).mask.get_bit (2 * k) =
        (IrisCode.random_rng codeArr draws).mask.get_bit (2 * k + 1)) ∧
    (clearSet (IrisCode.random_rng codeArr draws).mask).card ≤ 12 := by
  have hdr' : ∀ d ∈ draws, d < 64 := hdr
  refine ⟨rfl, rfl, ?_, ?_⟩
  · intro k hk
    exact clearPairs_pair_eq draws IrisCodeArray.ONES hdr'
      (fun k' _ => by rw [get_bit_ONES, get_bit_ONES]) k hk
  · have h := clearPairs_card_le draws IrisCodeArray.ONES hdr'
    rw [clearSet_ONES] at h
    have h12 : 2 * (IrisCodeArray.IRIS_CODE_SIZE / 10 / 2) = 12 := rfl
    have hm : (IrisCode.random_rng codeArr draws).mask = clearPairs IrisCodeArray.ONES draws :=
      rfl
    rw [hm]
    simp only [Finset.card_empty, Nat.zero_add] at h
    omega

/-- C8: the final report computes recall as correct-match-count divided by
query-count times 100, and average evaluation cost as the evaluation counter
(reset to zero at the searching-mode switch, hence counting only the query
phase) divided by query-count, where query-count is the number of retained
query templates. The result is independent of the counter value accumulated
during insertion. -/
theorem claim_C8_report_formula (insertEvals : Nat) (queries : List (Nat × Bool)) :
    benchReport insertEvals queries =
      ((queries.map Prod.fst).sum / queries.length,
        ((queries.countP Prod.snd : ℚ) / (queries.length : ℚ)) * 100) := by
  simp only [benchReport]
  rw [queryFold_eq]
  simp

/-- C9: the sequence produced by `bits()` is finite with exactly
`IRIS_CODE_SIZE = 128` elements (any fuel of at least 128 steps reaches the
iterator's `None`), and its `n`-th element equals `get_bit(n)`: it enumerates
all bits in index order. -/
theorem claim_C9_bits_enumeration (a : IrisCodeArray) (fuel : Nat)
    (hfuel : IrisCodeArray.IRIS_CODE_SIZE ≤ fuel) :
    (runBits fuel a.bits).length = IrisCodeArray.IRIS_CODE_SIZE ∧
    ∀ n, n < IrisCodeArray.IRIS_CODE_SIZE →
      (runBits fuel a.bits).getD n false = a.get_bit n := by
  have h := runBits_eq fuel 0 0 a (by simpa using hfuel) (fun h0 => absurd rfl h0)
  have hb : a.bits = ⟨a, 0, 0⟩ := rfl
  rw [hb, h]
  constructor
  · simp
  · intro n hn
    simp [List.getD_eq_getElem?_getD, List.getElem?_map, List.getElem?_range hn]

/-- C10: single-bit frame property of the mutators: `set_bit(i, v)` makes
`get_bit(i)` return `v` and leaves every other index unchanged; `flip_bit(i)`
negates `get_bit(i)`, leaves every other index unchanged, and applied twice
restores the original array. -/
theorem claim_C10_bit_mutator_frame (a : IrisCodeArray) (i j : Nat) (v : Bool)
    (hi : i < IrisCodeArray.IRIS_CODE_SIZE) (hj : j < IrisCodeArray.IRIS_CODE_SIZE)
    (hne : j ≠ i) :
    (a.set_bit i v).get_bit i = v ∧
    (a.set_bit i v).get_bit j = a.get_bit j ∧
    (a.flip_bit i).get_bit i = !a.get_bit i ∧
    (a.flip_bit i).get_bit j = a.get_bit j ∧
    (a.flip_bit i).flip_bit i = a :=
  ⟨get_bit_set_bit_self a i v, get_bit_set_bit_ne a i j v hi hj hne,
    get_bit_flip_bit_self a i, get_bit_flip_bit_ne a i j hi hj hne,
    flip_bit_flip_bit a i⟩

/-! ## Witnesses -/

/-- Witness for C3 at the concrete draw list `[0, 1, 2, 3, 0, 63]` (six draws,
one duplicated). -/
theorem claim_C3_witness :
    (([0, 1, 2, 3, 0, 63] : List Nat).length = IrisCodeArray.IRIS_CODE_SIZE / 10 / 2 ∧
      ∀ d ∈ ([0, 1, 2, 3, 0, 63] : List Nat), d < IrisCodeArray.IRIS_CODE_SIZE / 2) ∧
    (IrisCodeArray.IRIS_CODE_SIZE / 10 / 2 = 6 ∧
      (IrisCode.random_rng IrisCodeArray.ZERO [0, 1, 2, 3, 0, 63]).mask =
        clearPairs IrisCodeArray.ONES [0, 1, 2, 3, 0, 63] ∧
      (∀ k, k < IrisCodeArray.IRIS_CODE_SIZE / 2 →
        (IrisCode.random_rng IrisCodeArray.ZERO [0, 1, 2, 3, 0, 63]).mask.get_bit (2 * k) =
          (IrisCode.random_rng IrisCodeArray.ZERO [0, 1, 2, 3, 0, 63]).mask.get_bit
            (2 * k + 1)) ∧
      (clearSet (IrisCode.random_rng IrisCodeArray.ZERO [0, 1, 2, 3, 0, 63]).mask).card ≤ 12) :=
  ⟨⟨by decide, by decide⟩,
    claim_C3_random_mask_invariants IrisCodeArray.ZERO [0, 1, 2, 3, 0, 63]
      (by decide) (by decide)⟩

/-- Witness for C4 at two templates whose masks are both zero (empty mask
intersection). -/
theorem claim_C4_witness :
    ((IrisCode.mk IrisCodeArray.ZERO IrisCodeArray.ZERO).mask.bitand
        (IrisCode.mk IrisCodeArray.ONES IrisCodeArray.ZERO).mask).count_ones = 0 ∧
    (IrisCode.mk IrisCodeArray.ZERO IrisCodeArray.ZERO).get_distance
        (IrisCode.mk IrisCodeArray.ONES IrisCodeArray.ZERO) =
      ((((IrisCode.mk IrisCodeArray.ZERO IrisCodeArray.ZERO).code.bitxor
            (IrisCode.mk IrisCodeArray.ONES IrisCodeArray.ZERO).code).bitand
          ((IrisCode.mk IrisCodeArray.ZERO IrisCodeArray.ZERO).mask.bitand
            (IrisCode.mk IrisCodeArray.ONES IrisCodeArray.ZERO).mask)).count_ones : ℚ) / 0 :=
  ⟨by decide,
    claim_C4_zero_mask_division (IrisCode.mk IrisCodeArray.ZERO IrisCodeArray.ZERO)
      (IrisCode.mk IrisCodeArray.ONES IrisCodeArray.ZERO) (by decide)⟩

/-- Witness for C5 at two default-shaped templates (all-ones masks). -/
theorem claim_C5_witness :
    ((IrisCode.mk IrisCodeArray.ZERO IrisCodeArray.ONES).mask.bitand
        (IrisCode.mk IrisCodeArray.ONES IrisCodeArray.ONES).mask).count_ones ≠ 0 ∧
    (0 ≤ (IrisCode.mk IrisCodeArray.ZERO IrisCodeArray.ONES).get_distance
        (IrisCode.mk IrisCodeArray.ONES IrisCodeArray.ONES) ∧
      (IrisCode.mk IrisCodeArray.ZERO IrisCodeArray.ONES).get_distance
          (IrisCode.mk IrisCodeArray.ONES IrisCodeArray.ONES) ≤ 1 ∧
      (((IrisCode.mk IrisCodeArray.ZERO IrisCodeArray.ONES).code.bitxor
            (IrisCode.mk IrisCodeArray.ONES IrisCodeArray.ONES).code).bitand
          ((IrisCode.mk IrisCodeArray.ZERO IrisCodeArray.ONES).mask.bitand
            (IrisCode.mk IrisCodeArray.ONES IrisCodeArray.ONES).mask)).count_ones ≤
        ((IrisCode.mk IrisCodeArray.ZERO IrisCodeArray.ONES).mask.bitand
          (IrisCode.mk IrisCodeArray.ONES IrisCodeArray.ONES).mask).count_ones) :=
  ⟨by decide,
    claim_C5_distance_in_unit_interval (IrisCode.mk IrisCodeArray.ZERO IrisCodeArray.ONES)
      (IrisCode.mk IrisCodeArray.ONES IrisCodeArray.ONES) (by decide)⟩

/-- Witness for C9 at the array with bits 0 and 65 set and fuel exactly 128. -/
theorem claim_C9_witness :
    IrisCodeArray.IRIS_CODE_SIZE ≤ 128 ∧
    ((runBits 128 (IrisCodeArray.bits ⟨1, 2⟩)).length = IrisCodeArray.IRIS_CODE_SIZE ∧
      ∀ n, n < IrisCodeArray.IRIS_CODE_SIZE →
        (runBits 128 (IrisCodeArray.bits ⟨1, 2⟩)).getD n false =
          IrisCodeArray.get_bit ⟨1, 2⟩ n) :=
  ⟨by decide, claim_C9_bits_enumeration ⟨1, 2⟩ 128 (by decide)⟩

/-- Witness for C10 at the array `⟨5, 9⟩`, indices 3 and 70. -/
theorem claim_C10_witness :
    ((3 : Nat) < IrisCodeArray.IRIS_CODE_SIZE ∧ (70 : Nat) < IrisCodeArray.IRIS_CODE_SIZE ∧
      (70 : Nat) ≠ 3) ∧
    ((IrisCodeArray.set_bit ⟨5, 9⟩ 3 true).get_bit 3 = true ∧
      (IrisCodeArray.set_bit ⟨5, 9⟩ 3 true).get_bit 70 = IrisCodeArray.get_bit ⟨5, 9⟩ 70 ∧
      (IrisCodeArray.flip_bit ⟨5, 9⟩ 3).get_bit 3 = !IrisCodeArray.get_bit ⟨5, 9⟩ 3 ∧
      (IrisCodeArray.flip_bit ⟨5, 9⟩ 3).get_bit 70 = IrisCodeArray.get_bit ⟨5, 9⟩ 70 ∧
      (IrisCodeArray.flip_bit ⟨5, 9⟩ 3).flip_bit 3 = ⟨5, 9⟩) :=
  ⟨⟨by decide, by decide, by decide⟩,
    claim_C10_bit_mutator_frame ⟨5, 9⟩ 3 70 true (by decide) (by decide) (by decide)⟩
